import Mathlib

/-!
Verification development for `pycox/models/cox.py`.

The Python source is shallowly embedded over exact arithmetic:
durations, event indicators and exponentiated risk scores become
rationals (`ℚ`) in the grouped Breslow pipeline, and the survival /
partial-likelihood layer, which applies `exp`/`log` to scorer outputs,
is embedded over `ℝ`.  Pandas series become association lists
`List (α × α)` (index paired with value), pandas data-frame rows become
structures, and Python exceptions become an explicit error type.
-/

namespace Pycox

/-- Python exceptions raised by the embedded fragments of `cox.py`. -/
inductive PyErr where
  /-- `TypeError`: wrong number of positional arguments, unpacking or
  converting a bound-method object. -/
  | typeError
  /-- `ValueError("Need to give a 'input' and 'target' to this function.")`
  (line 55). -/
  | valueErrorNeedInputTarget
  /-- `ValueError("'input', 'target' and 'baseline_hazards_' can not both
  be different from 'None'.")` (line 88). -/
  | valueErrorBothGiven
  /-- `ValueError('Need to compute baseline_hazards_.')` (line 124). -/
  | valueErrorNeedBaselineHazards
  /-- `AssertionError` from the monotonic-index assert (lines 92, 126). -/
  | assertionError
  /-- `AttributeError`: accessing a model attribute that was never set. -/
  | attributeError
  /-- `RecursionError`: Python call-stack exhaustion. -/
  | recursionError
deriving DecidableEq, Repr

/-! ### `search_sorted_idx` (lines 10-22)

`np.searchsorted(array, values)` (side `left`) returns, for a sorted
`array`, the insertion point of each value: the number of entries
strictly smaller than the value.  The embedding below then mirrors the
body of `search_sorted_idx` line by line; the returned `Bool` records
whether the `warnings.warn` on line 20 fired.  Precondition inherited
from numpy: `array` is sorted and (for the indexing on line 17)
non-empty. -/

/-- `np.searchsorted(a, v)` with `side='left'` on a sorted list:
the count of entries strictly below `v`. -/
def np_searchsorted {α : Type} [LinearOrder α] (a : List α) (v : α) : ℕ :=
  (a.takeWhile (fun x => decide (x < v))).length

/-- Lines 10-22 of `cox.py`.  For each value: insertion point, clamp `n`
to `n-1` (line 16), subtract one when the value is not an exact hit
(lines 17-18), warn and clamp negatives to `0` (lines 19-21). -/
def search_sorted_idx {α : Type} [LinearOrder α] (a : List α) (values : List α) :
    List ℕ × Bool :=
  let n := a.length
  let idx : List ℤ := values.map (fun v =>
    let i := np_searchsorted a v
    let i := if i = n then n - 1 else i
    (i : ℤ) - (if a.getD i v ≠ v then 1 else 0))
  (idx.map (fun i => if i < 0 then 0 else i.toNat), idx.any (fun i => decide (i < 0)))

/-! ### The Breslow baseline-hazard pipeline (`_compute_baseline_hazards`,
lines 385-411), over exact rationals.

A row of the pandas frame built on line 402 (`df_target.assign(expg=...)`):
`duration` and `event` come from the target data-frame, `expg` is the
exponentiated scorer output `np.exp(self.predict(input, ...))`, treated
as an opaque per-subject positive number. -/

/-- One subject row: `duration`, `event`, `expg = exp(g)`. -/
structure Subj where
  duration : ℚ
  event : ℚ
  expg : ℚ
deriving DecidableEq, Repr

/-- `groupby(duration)` key set, `sort_index` ascending: the distinct
durations of the cohort in increasing order. -/
def sortedDistinct (subs : List Subj) : List ℚ :=
  List.insertionSort (· ≤ ·) (subs.map Subj.duration).dedup

/-- `agg({'expg': 'sum'})` for the duration-`t` group. -/
def sumExpg (subs : List Subj) (t : ℚ) : ℚ :=
  ((subs.filter (fun s => decide (s.duration = t))).map Subj.expg).sum

/-- `agg({event_col: 'sum'})` for the duration-`t` group. -/
def numEvents (subs : List Subj) (t : ℚ) : ℚ :=
  ((subs.filter (fun s => decide (s.duration = t))).map Subj.event).sum

/-- Lines 405-408 of the pipeline, run over the descending-sorted
distinct durations `ts`: keep the running cumulative sum `acc` of the
per-group `expg` sums (line 406) and divide the per-group event count by
it (line 407).  In `ℚ` division by zero is `0`, which coincides with the
`fillna(0.)` normalization of line 408 for the degenerate zero-denominator
group. -/
def hazardsDescAux (subs : List Subj) (acc : ℚ) : List ℚ → List (ℚ × ℚ)
  | [] => []
  | t :: ts =>
    let acc2 := acc + sumExpg subs t
    (t, numEvents subs t / acc2) :: hazardsDescAux subs acc2 ts

/-- The cutoff test `index <= max_duration` of line 410; `max_duration`
absent means `np.inf` (lines 396-397), i.e. everything passes. -/
def withinMax {α : Type} [LinearOrder α] (max_duration : Option α) (t : α) : Bool :=
  match max_duration with
  | none => true
  | some m => decide (t ≤ m)

/-- `CoxPHBase._compute_baseline_hazards` (lines 385-411): group by
duration, sort descending (line 405), cumulative-sum the `expg` column
(line 406), divide events by it (line 407), `fillna(0.)` (line 408),
reverse back to ascending (line 409), and keep index `≤ max_duration`
(line 410). -/
def _compute_baseline_hazards (subs : List Subj) (max_duration : Option ℚ) :
    List (ℚ × ℚ) :=
  ((hazardsDescAux subs 0 (sortedDistinct subs).reverse).reverse).filter
    (fun p => withinMax max_duration p.1)

/-- The risk-set denominator of the spec: for a distinct duration `t`,
`risk_set_expg(t) = Σ_{t' ≥ t} Σ_{i : duration_i = t'} expg_i`, the
suffix sum of the per-group `expg` sums over distinct durations `≥ t`. -/
def risk_set_expg (subs : List Subj) (t : ℚ) : ℚ :=
  (((sortedDistinct subs).filter (fun u => decide (t ≤ u))).map (sumExpg subs)).sum

theorem sortedDistinct_sorted (subs : List Subj) :
    List.Sorted (· < ·) (sortedDistinct subs) := by
  have hle : List.Sorted (· ≤ ·) (sortedDistinct subs) :=
    List.sorted_insertionSort _ _
  have hnd : (sortedDistinct subs).Nodup :=
    ((List.perm_insertionSort _ _).nodup_iff).mpr ((subs.map Subj.duration).nodup_dedup)
  exact hle.lt_of_le hnd

theorem hazardsDescAux_map_fst (subs : List Subj) (acc : ℚ) (ds : List ℚ) :
    (hazardsDescAux subs acc ds).map Prod.fst = ds := by
  induction ds generalizing acc with
  | nil => rfl
  | cons t ts ih => simp [hazardsDescAux, ih]

theorem mem_hazardsDescAux (subs : List Subj) (acc : ℚ) (ds : List ℚ)
    (p : ℚ × ℚ) (hp : p ∈ hazardsDescAux subs acc ds) :
    ∃ pre post, ds = pre ++ p.1 :: post ∧
      p.2 = numEvents subs p.1 /
        (acc + (((pre.map (sumExpg subs)).sum) + sumExpg subs p.1)) := by
  induction ds generalizing acc with
  | nil => simp [hazardsDescAux] at hp
  | cons t ts ih =>
    simp only [hazardsDescAux, List.mem_cons] at hp
    rcases hp with hp | hp
    · subst hp
      exact ⟨[], ts, by simp, by simp⟩
    · obtain ⟨pre, post, hds, hval⟩ := ih (acc + sumExpg subs t) hp
      refine ⟨t :: pre, post, by simp [hds], ?_⟩
      rw [hval]
      simp only [List.map_cons, List.sum_cons]
      ring_nf

/-- A strictly descending list split around `t` keeps exactly the prefix
and `t` itself when filtered by `t ≤ ·`. -/
theorem filter_ge_of_sorted_gt (pre post : List ℚ) (t : ℚ)
    (h : (pre ++ t :: post).Pairwise (· > ·)) :
    (pre ++ t :: post).filter (fun u => decide (t ≤ u)) = pre ++ [t] := by
  rw [List.pairwise_append] at h
  obtain ⟨hpre, hrest, hcross⟩ := h
  rw [List.filter_append]
  have h1 : pre.filter (fun u => decide (t ≤ u)) = pre := by
    rw [List.filter_eq_self]
    intro a ha
    exact decide_eq_true (le_of_lt (hcross a ha t (List.mem_cons_self _ _)))
  have h2 : (t :: post).filter (fun u => decide (t ≤ u)) = [t] := by
    rw [List.pairwise_cons] at hrest
    simp only [List.filter_cons, decide_eq_true (le_refl t), if_pos]
    have : post.filter (fun u => decide (t ≤ u)) = [] := by
      rw [List.filter_eq_nil_iff]
      intro a ha
      simp only [decide_eq_true_eq]
      exact not_le_of_lt (hrest.1 a ha)
    simp [this]
  rw [h1, h2]

/-- Claim C1: `_compute_baseline_hazards` returns, for each distinct
duration `t` of the cohort with `t ≤ max_duration` (no cutoff when
`max_duration` is `None`), and for no other key, the hazard
`num_events(t) / risk_set_expg(t)` where `risk_set_expg(t)` is the
suffix sum `Σ_{t' ≥ t} Σ_{i : duration_i = t'} expg_i`; a zero
denominator yields hazard `0`; the keys are sorted ascending. -/
theorem baseline_hazards_breslow (subs : List Subj) (maxD : Option ℚ) :
    (_compute_baseline_hazards subs maxD).map Prod.fst
      = (sortedDistinct subs).filter (withinMax maxD)
    ∧ List.Sorted (· < ·) ((_compute_baseline_hazards subs maxD).map Prod.fst)
    ∧ ∀ p ∈ _compute_baseline_hazards subs maxD,
        p.2 = numEvents subs p.1 / risk_set_expg subs p.1
        ∧ (risk_set_expg subs p.1 = 0 → p.2 = 0) := by
  have hfst : ∀ (l : List (ℚ × ℚ)) (q : ℚ → Bool),
      (l.filter (fun p => q p.1)).map Prod.fst = (l.map Prod.fst).filter q := by
    intro l q
    induction l with
    | nil => rfl
    | cons a l ih =>
      by_cases h : q a.1
      · simp [List.filter_cons, h, ih]
      · simp [List.filter_cons, h, ih]
  have hkeys : (_compute_baseline_hazards subs maxD).map Prod.fst
      = (sortedDistinct subs).filter (withinMax maxD) := by
    unfold _compute_baseline_hazards
    rw [hfst]
    rw [List.map_reverse, hazardsDescAux_map_fst, List.reverse_reverse]
  refine ⟨hkeys, ?_, ?_⟩
  · rw [hkeys]
    exact (sortedDistinct_sorted subs).sublist (List.filter_sublist _)
  · intro p hp
    have hmem : p ∈ hazardsDescAux subs 0 (sortedDistinct subs).reverse := by
      have := List.mem_of_mem_filter hp
      exact List.mem_reverse.mp this
    obtain ⟨pre, post, hds, hval⟩ := mem_hazardsDescAux subs 0 _ p hmem
    have hdesc : ((sortedDistinct subs).reverse).Pairwise (· > ·) := by
      rw [List.pairwise_reverse]
      exact sortedDistinct_sorted subs
    have hfilter : ((sortedDistinct subs).reverse).filter (fun u => decide (p.1 ≤ u))
        = pre ++ [p.1] := by
      rw [hds]
      exact filter_ge_of_sorted_gt pre post p.1 (hds ▸ hdesc)
    have hrisk : risk_set_expg subs p.1
        = (pre.map (sumExpg subs)).sum + sumExpg subs p.1 := by
      unfold risk_set_expg
      have : (sortedDistinct subs).filter (fun u => decide (p.1 ≤ u))
          = (((sortedDistinct subs).reverse).filter (fun u => decide (p.1 ≤ u))).reverse := by
        rw [List.filter_reverse, List.reverse_reverse]
      rw [this, hfilter]
      rw [List.map_reverse, List.sum_reverse]
      simp
    have hval2 : p.2 = numEvents subs p.1 / risk_set_expg subs p.1 := by
      rw [hval, hrisk, zero_add]
    exact ⟨hval2, fun h0 => by rw [hval2, h0, div_zero]⟩

/-- Witness for `baseline_hazards_breslow` at the one-subject cohort
`duration 1, event 1, expg 1`. -/
theorem baseline_hazards_breslow_witness :
    ((1:ℚ), (1:ℚ)) ∈ _compute_baseline_hazards [⟨1, 1, 1⟩] none
    ∧ (1:ℚ) = numEvents [⟨1, 1, 1⟩] 1 / risk_set_expg [⟨1, 1, 1⟩] 1 := by
  have hmem : ((1:ℚ), (1:ℚ)) ∈ _compute_baseline_hazards [⟨1, 1, 1⟩] none := by
    norm_num [_compute_baseline_hazards, sortedDistinct, hazardsDescAux, sumExpg,
      numEvents, withinMax, List.dedup]
  exact ⟨hmem, ((baseline_hazards_breslow [⟨1, 1, 1⟩] none).2.2 (1, 1) hmem).1⟩

/-- Claim C2 (against the code): on the sorted axis `[1,3,5]` with
queries `[0,1,2,3,6]`, `search_sorted_idx` returns `[0,0,0,1,1]`, not
the left-neighbor answer `[0,0,0,1,2]`: the clamp of line 16 runs before
the not-exact decrement of lines 17-18, so an above-range query is
decremented twice.  The below-range warning fires (`true`). -/
theorem search_sorted_idx_above_range_bug :
    search_sorted_idx ([1, 3, 5] : List ℚ) [0, 1, 2, 3, 6] = ([0, 0, 0, 1, 1], true) := by
  decide

/-! ### `compute_baseline_cumulative_hazards` (lines 87-100)

The series-level core of the method: the monotonic-index assert of
lines 92-93 followed by the `cumsum()` of lines 94-96.  (The
`input`/`target` resolution and caching around it is embedded separately
below for the data-frame wrappers.) -/

/-- Pandas `Index.is_monotonic_increasing`: every entry is `≤` its
successor (non-strict). -/
def is_monotonic_increasing {α : Type} [LinearOrder α] : List α → Bool
  | [] => true
  | [_] => true
  | a :: b :: rest => decide (a ≤ b) && is_monotonic_increasing (b :: rest)

/-- Pandas `Series.cumsum()` on an (index, value) association list,
carrying the running total `acc`. -/
def cumsumPairsFrom {α : Type} [AddCommMonoid α] (acc : α) :
    List (α × α) → List (α × α)
  | [] => []
  | (t, v) :: rest => (t, acc + v) :: cumsumPairsFrom (acc + v) rest

/-- `baseline_hazards_.cumsum()` (lines 94-96): prefix sums of the
values, same index. -/
def cumsumPairs {α : Type} [AddCommMonoid α] (l : List (α × α)) : List (α × α) :=
  cumsumPairsFrom 0 l

/-- Lines 92-96 of `cox.py`: assert that the index of `baseline_hazards_`
is monotonic increasing, then return its cumulative sum. -/
def compute_baseline_cumulative_hazards {α : Type} [LinearOrderedField α]
    (baseline_hazards_ : List (α × α)) : Except PyErr (List (α × α)) :=
  if is_monotonic_increasing (baseline_hazards_.map Prod.fst) then
    Except.ok (cumsumPairs baseline_hazards_)
  else
    Except.error PyErr.assertionError

/-- Differencing consecutive entries of a series' values: the first entry
stands alone, each later entry has its predecessor subtracted. -/
def diffConsecutive {α : Type} [SubtractionMonoid α] : List α → List α
  | [] => []
  | x :: xs => x :: List.zipWith (fun a b => a - b) xs (x :: xs)

theorem is_monotonic_tail {α : Type} [LinearOrder α] (x : α) (xs : List α)
    (h : is_monotonic_increasing (x :: xs) = true) :
    is_monotonic_increasing xs = true := by
  cases xs with
  | nil => rfl
  | cons y ys =>
    simp only [is_monotonic_increasing, Bool.and_eq_true] at h
    exact h.2

theorem is_monotonic_head_le {α : Type} [LinearOrder α] (x : α) (xs : List α)
    (h : is_monotonic_increasing (x :: xs) = true) :
    ∀ (j : ℕ) (hj : j < (x :: xs).length), x ≤ (x :: xs)[j] := by
  induction xs generalizing x with
  | nil =>
    intro j hj
    cases j with
    | zero => exact le_refl x
    | succ j => simp at hj
  | cons y ys ih =>
    intro j hj
    cases j with
    | zero => exact le_refl x
    | succ j =>
      simp only [is_monotonic_increasing, Bool.and_eq_true, decide_eq_true_eq] at h
      have := ih y h.2 j (by simpa using hj)
      calc x ≤ y := h.1
      _ ≤ _ := by simpa using this

theorem is_monotonic_get {α : Type} [LinearOrder α] (l : List α)
    (h : is_monotonic_increasing l = true) :
    ∀ (i j : ℕ), i ≤ j → ∀ (hi : i < l.length) (hj : j < l.length),
      l[i] ≤ l[j] := by
  induction l with
  | nil => intro i j _ hi _; exact absurd hi (by simp)
  | cons x xs ih =>
    intro i j hij hi hj
    cases i with
    | zero => exact is_monotonic_head_le x xs h j hj
    | succ i =>
      cases j with
      | zero => exact absurd hij (by omega)
      | succ j =>
        have := ih (is_monotonic_tail x xs h) i j (by omega)
          (by simpa using hi) (by simpa using hj)
        simpa using this

theorem cumsumPairsFrom_map_fst {α : Type} [AddCommMonoid α] (acc : α)
    (l : List (α × α)) :
    (cumsumPairsFrom acc l).map Prod.fst = l.map Prod.fst := by
  induction l generalizing acc with
  | nil => rfl
  | cons p rest ih =>
    cases p with
    | mk t v => simp [cumsumPairsFrom, ih]

theorem cumsumPairsFrom_length {α : Type} [AddCommMonoid α] (acc : α)
    (l : List (α × α)) :
    (cumsumPairsFrom acc l).length = l.length := by
  induction l generalizing acc with
  | nil => rfl
  | cons p rest ih =>
    cases p with
    | mk t v => simp [cumsumPairsFrom, ih]

theorem cumsumPairsFrom_acc_le (l : List (ℚ × ℚ)) (acc : ℚ)
    (hnn : ∀ p ∈ l, 0 ≤ p.2) :
    ∀ (j : ℕ) (hj : j < (cumsumPairsFrom acc l).length),
      acc ≤ ((cumsumPairsFrom acc l)[j]).2 := by
  induction l generalizing acc with
  | nil => intro j hj; exact absurd hj (by simp [cumsumPairsFrom])
  | cons p rest ih =>
    intro j hj
    cases p with
    | mk t v =>
      have hv : 0 ≤ v := hnn (t, v) (List.mem_cons_self _ _)
      have hacc : acc ≤ acc + v := le_add_of_nonneg_right hv
      cases j with
      | zero => simpa [cumsumPairsFrom] using hacc
      | succ j =>
        have := ih (acc + v) (fun q hq => hnn q (List.mem_cons_of_mem _ hq)) j
          (by simpa [cumsumPairsFrom] using hj)
        calc acc ≤ acc + v := hacc
        _ ≤ _ := by simpa [cumsumPairsFrom] using this

theorem cumsumPairsFrom_snd_mono (l : List (ℚ × ℚ)) (acc : ℚ)
    (hnn : ∀ p ∈ l, 0 ≤ p.2) :
    ∀ (i j : ℕ), i ≤ j →
      ∀ (hi : i < (cumsumPairsFrom acc l).length)
        (hj : j < (cumsumPairsFrom acc l).length),
      ((cumsumPairsFrom acc l)[i]).2 ≤ ((cumsumPairsFrom acc l)[j]).2 := by
  induction l generalizing acc with
  | nil => intro i j _ hi _; exact absurd hi (by simp [cumsumPairsFrom])
  | cons p rest ih =>
    intro i j hij hi hj
    cases p with
    | mk t v =>
      have hrest : ∀ q ∈ rest, 0 ≤ q.2 := fun q hq => hnn q (List.mem_cons_of_mem _ hq)
      cases i with
      | zero =>
        cases j with
        | zero => exact le_refl _
        | succ j =>
          have := cumsumPairsFrom_acc_le rest (acc + v) hrest j
            (by simpa [cumsumPairsFrom] using hj)
          simpa [cumsumPairsFrom] using this
      | succ i =>
        cases j with
        | zero => exact absurd hij (by omega)
        | succ j =>
          have := ih (acc + v) hrest i j (by omega)
            (by simpa [cumsumPairsFrom] using hi)
            (by simpa [cumsumPairsFrom] using hj)
          simpa [cumsumPairsFrom] using this

/-- Claim C3: `compute_baseline_cumulative_hazards` fails fast on a
non-monotonic index, otherwise returns exactly the prefix sum of the
values in index order, and on non-negative values the result is
non-decreasing: value at `t1` is `≤` value at `t2` whenever `t1 < t2`. -/
theorem cumulative_hazards_prefix_sum (bh : List (ℚ × ℚ)) :
    (is_monotonic_increasing (bh.map Prod.fst) = false →
      compute_baseline_cumulative_hazards bh = Except.error PyErr.assertionError)
    ∧ (is_monotonic_increasing (bh.map Prod.fst) = true →
      compute_baseline_cumulative_hazards bh = Except.ok (cumsumPairs bh))
    ∧ ((∀ p ∈ bh, 0 ≤ p.2) →
      ∀ cs, compute_baseline_cumulative_hazards bh = Except.ok cs →
        ∀ (i j : ℕ) (hi : i < cs.length) (hj : j < cs.length),
          (cs[i]).1 < (cs[j]).1 → (cs[i]).2 ≤ (cs[j]).2) := by
  refine ⟨?_, ?_, ?_⟩
  · intro h
    simp [compute_baseline_cumulative_hazards, h]
  · intro h
    simp [compute_baseline_cumulative_hazards, h]
  · intro hnn cs hok i j hi hj hlt
    have hmono : is_monotonic_increasing (bh.map Prod.fst) = true := by
      by_contra h
      simp [compute_baseline_cumulative_hazards,
        Bool.eq_false_iff.mpr h] at hok
    have hcs : cs = cumsumPairs bh := by
      simp [compute_baseline_cumulative_hazards, hmono] at hok
      exact hok.symm
    subst hcs
    have hmfst : (cumsumPairs bh).map Prod.fst = bh.map Prod.fst :=
      cumsumPairsFrom_map_fst 0 bh
    have hlenm : (cumsumPairs bh).length = (bh.map Prod.fst).length := by
      rw [List.length_map]
      exact cumsumPairsFrom_length 0 bh
    have hkey : ∀ (k : ℕ) (hk : k < (cumsumPairs bh).length)
        (hk2 : k < (bh.map Prod.fst).length),
        ((cumsumPairs bh)[k]).1 = (bh.map Prod.fst)[k] := by
      intro k hk hk2
      have hkm : k < ((cumsumPairs bh).map Prod.fst).length := by simpa using hk
      have h1 : ((cumsumPairs bh).map Prod.fst)[k]? = (bh.map Prod.fst)[k]? := by
        rw [hmfst]
      rw [List.getElem?_eq_getElem hkm, List.getElem?_eq_getElem hk2] at h1
      have h2 := Option.some.inj h1
      simpa using h2
    have hij : i ≤ j := by
      by_contra hij
      push_neg at hij
      have hi2 : i < (bh.map Prod.fst).length := hlenm ▸ hi
      have hj2 : j < (bh.map Prod.fst).length := hlenm ▸ hj
      have hle := is_monotonic_get (bh.map Prod.fst) hmono j i (le_of_lt hij)
        hj2 hi2
      rw [hkey i hi hi2, hkey j hj hj2] at hlt
      exact absurd hlt (not_lt_of_le hle)
    exact cumsumPairsFrom_snd_mono bh 0 hnn i j hij hi hj

/-- Witness for `cumulative_hazards_prefix_sum` on the series
`[(1,2), (3,4)]`, whose cumulative sum is `[(1,2), (3,6)]`. -/
theorem cumulative_hazards_prefix_sum_witness :
    (([((1:ℚ), (2:ℚ)), (3, 6)])[0]).2 ≤ (([((1:ℚ), (2:ℚ)), (3, 6)])[1]).2 :=
  (cumulative_hazards_prefix_sum [(1, 2), (3, 4)]).2.2 (by decide)
    [(1, 2), (3, 6)]
    (by norm_num [compute_baseline_cumulative_hazards, is_monotonic_increasing,
      cumsumPairs, cumsumPairsFrom])
    0 1 (by decide) (by decide) (by decide)

/-- Claim C5: on the cohort `durations [2,2,3]`, `events [1,0,1]`,
`expg [1,1,2]`, the Breslow estimator gives hazards `(2 ↦ 1/4, 3 ↦ 1/2)`
and the derived cumulative hazards are `(2 ↦ 1/4, 3 ↦ 3/4)`. -/
theorem concrete_cohort_hazards :
    _compute_baseline_hazards [⟨2, 1, 1⟩, ⟨2, 0, 1⟩, ⟨3, 1, 2⟩] none
      = [(2, 1/4), (3, 1/2)]
    ∧ compute_baseline_cumulative_hazards
        (_compute_baseline_hazards [⟨2, 1, 1⟩, ⟨2, 0, 1⟩, ⟨3, 1, 2⟩] none)
      = Except.ok [(2, 1/4), (3, 3/4)] := by
  have h : _compute_baseline_hazards [⟨2, 1, 1⟩, ⟨2, 0, 1⟩, ⟨3, 1, 2⟩] none
      = [(2, 1/4), (3, 1/2)] := by
    norm_num [_compute_baseline_hazards, sortedDistinct, hazardsDescAux, sumExpg,
      numEvents, withinMax, List.dedup]
  refine ⟨h, ?_⟩
  rw [h]
  norm_num [compute_baseline_cumulative_hazards, is_monotonic_increasing,
    cumsumPairs, cumsumPairsFrom]

theorem pairwise_le_monotonic {α : Type} [LinearOrder α] (l : List α) :
    l.Pairwise (· ≤ ·) → is_monotonic_increasing l = true := by
  induction l with
  | nil => intro _; rfl
  | cons x xs ih =>
    intro h
    rw [List.pairwise_cons] at h
    cases xs with
    | nil => rfl
    | cons y ys =>
      simp only [is_monotonic_increasing, Bool.and_eq_true, decide_eq_true_eq]
      exact ⟨h.1 y (List.mem_cons_self _ _), ih h.2⟩

theorem diff_cumsum_aux (l : List (ℚ × ℚ)) (acc : ℚ) :
    List.zipWith (fun a b => a - b) ((cumsumPairsFrom acc l).map Prod.snd)
        (acc :: (cumsumPairsFrom acc l).map Prod.snd)
      = l.map Prod.snd := by
  induction l generalizing acc with
  | nil => rfl
  | cons p rest ih =>
    cases p with
    | mk t v =>
      simp only [cumsumPairsFrom, List.map_cons, List.zipWith_cons_cons,
        add_sub_cancel_left]
      rw [ih (acc + v)]

/-- Claim C7: for a baseline series with strictly increasing index, the
cumulative prefix sum followed by consecutive differencing reproduces
the original values exactly. -/
theorem cumulative_roundtrip (bh : List (ℚ × ℚ))
    (h : (bh.map Prod.fst).Pairwise (· < ·)) :
    compute_baseline_cumulative_hazards bh = Except.ok (cumsumPairs bh)
    ∧ diffConsecutive ((cumsumPairs bh).map Prod.snd) = bh.map Prod.snd := by
  constructor
  · have hmono : is_monotonic_increasing (bh.map Prod.fst) = true :=
      pairwise_le_monotonic _ (h.imp (fun hab => le_of_lt hab))
    simp [compute_baseline_cumulative_hazards, hmono]
  · cases bh with
    | nil => rfl
    | cons p rest =>
      cases p with
      | mk t v =>
        simp only [cumsumPairs, cumsumPairsFrom, List.map_cons, diffConsecutive]
        rw [diff_cumsum_aux rest (0 + v)]
        simp

/-- Witness for `cumulative_roundtrip` on the series `[(1,5), (2,7)]`. -/
theorem cumulative_roundtrip_witness :
    diffConsecutive ((cumsumPairs [((1:ℚ), (5:ℚ)), (2, 7)]).map Prod.snd)
      = ([((1:ℚ), (5:ℚ)), (2, 7)]).map Prod.snd :=
  (cumulative_roundtrip [(1, 5), (2, 7)] (by decide)).2

/-! ### The prediction layer (lines 102-171 and 413-467), over `ℝ`

The scorer `self.predict(input, batch_size)` is the external
collaborator; its per-subject outputs enter these methods as the list
`g : List ℝ`, and `np.exp` becomes `Real.exp`. -/

/-- The cached attributes of a fitted model read by the prediction
methods; `none` models the attribute not existing (`hasattr` false).
The invariant maintained by `compute_baseline_cumulative_hazards` with
`set_hazards=True` (lines 97-99) and by `load_net` (lines 253-255) is
that `baseline_cumulative_hazards_` is the `cumsum` of
`baseline_hazards_`. -/
structure CoxState where
  baseline_hazards_ : Option (List (ℝ × ℝ))
  baseline_cumulative_hazards_ : Option (List (ℝ × ℝ))

/-- Elementwise `np.exp(-...)` over a matrix whose rows are
time-indexed lists of per-subject values (lines 148 and 170). -/
noncomputable def matExpNeg (m : List (ℝ × List ℝ)) : List (ℝ × List ℝ) :=
  m.map (fun row => (row.1, row.2.map (fun H => Real.exp (-H))))

/-- `CoxPHBase._predict_cumulative_hazards` (lines 413-434): the
cumulative baseline series (by the `CoxState` invariant, the `cumsum` of
the baseline series in both branches of lines 426-430), truncated to
`index ≤ max_duration` (lines 425, 431), then the outer product with the
`exp(g)` row (lines 432-433): row `t`, column `i` holds `H0(t) * exp(g_i)`. -/
noncomputable def _predict_cumulative_hazards (g : List ℝ) (maxD : Option ℝ)
    (bh : List (ℝ × ℝ)) : List (ℝ × List ℝ) :=
  ((cumsumPairs bh).filter (fun p => withinMax maxD p.1)).map
    (fun p => (p.1, g.map (fun gi => p.2 * Real.exp gi)))

/-- `CoxBase.predict_cumulative_hazards` (lines 102-128): use the
explicit `baseline_hazards_` argument, else the cached attribute, else
raise `ValueError` (lines 122-125); assert the index is monotonic
increasing (lines 126-127); delegate (line 128).  The method assigns no
attribute, so the model state is returned unchanged in every branch. -/
noncomputable def predict_cumulative_hazards (st : CoxState) (g : List ℝ)
    (maxD : Option ℝ) (bhArg : Option (List (ℝ × ℝ))) :
    Except PyErr (List (ℝ × List ℝ)) × CoxState :=
  match bhArg with
  | some bh =>
    (if is_monotonic_increasing (bh.map Prod.fst) then
      Except.ok (_predict_cumulative_hazards g maxD bh)
    else Except.error PyErr.assertionError, st)
  | none =>
    match st.baseline_hazards_ with
    | none => (Except.error PyErr.valueErrorNeedBaselineHazards, st)
    | some bh =>
      (if is_monotonic_increasing (bh.map Prod.fst) then
        Except.ok (_predict_cumulative_hazards g maxD bh)
      else Except.error PyErr.assertionError, st)

/-- `CoxBase.predict_survival_function` (lines 133-148):
`np.exp(-self.predict_cumulative_hazards(input, max_duration,
batch_size, verbose, baseline_hazards_))`, elementwise. -/
noncomputable def predict_survival_function (st : CoxState) (g : List ℝ)
    (maxD : Option ℝ) (bhArg : Option (List (ℝ × ℝ))) :
    Except PyErr (List (ℝ × List ℝ)) × CoxState :=
  let r := predict_cumulative_hazards st g maxD bhArg
  (r.1.map matExpNeg, r.2)

/-- `CoxPHBase.predict_cumulative_hazards_at_times` (lines 436-467):
take the cached cumulative series when no explicit baseline is given
(line 455, an `AttributeError` if it was never set), else run the
explicit series through `compute_baseline_cumulative_hazards` (lines
457-458); resolve each query time to an index of the series with
`search_sorted_idx` (line 461); outer product of the selected cumulative
hazards with the `exp(g)` row (lines 462-464), indexed by the query
times (line 466). -/
noncomputable def predict_cumulative_hazards_at_times (st : CoxState)
    (times : List ℝ) (g : List ℝ) (bhArg : Option (List (ℝ × ℝ))) :
    Except PyErr (List (ℝ × List ℝ)) :=
  let bchE : Except PyErr (List (ℝ × ℝ)) :=
    match bhArg with
    | none =>
      match st.baseline_cumulative_hazards_ with
      | none => Except.error PyErr.attributeError
      | some b => Except.ok b
    | some bh => compute_baseline_cumulative_hazards bh
  bchE.map (fun bch =>
    let idxs := (search_sorted_idx (bch.map Prod.fst) times).1
    (times.zip (idxs.map (fun i => (bch.getD i (0, 0)).2))).map
      (fun p => (p.1, g.map (fun gi => p.2 * Real.exp gi))))

/-- `CoxBase.predict_survival_at_times` (lines 154-171):
`np.exp(-self.predict_cumulative_hazards_at_times(times, input,
batch_size, return_df, verbose, baseline_hazards_))`, elementwise. -/
noncomputable def predict_survival_at_times (st : CoxState) (times : List ℝ)
    (g : List ℝ) (bhArg : Option (List (ℝ × ℝ))) :
    Except PyErr (List (ℝ × List ℝ)) :=
  (predict_cumulative_hazards_at_times st times g bhArg).map matExpNeg

/-- Claim C4: `predict_survival_function` is exactly `exp(-H)` applied
elementwise to the matrix of `predict_cumulative_hazards` on the same
arguments (and `predict_survival_at_times` likewise over
`predict_cumulative_hazards_at_times`); every matrix entry `H ≥ 0`
yields a survival value in `(0, 1]`, and no clamping is applied: an
entry `H < 0` yields a survival value `> 1`. -/
theorem survival_is_exp_neg_cumhaz (st : CoxState) (g : List ℝ)
    (maxD : Option ℝ) (times : List ℝ) (bhArg : Option (List (ℝ × ℝ))) :
    predict_survival_function st g maxD bhArg
      = ((predict_cumulative_hazards st g maxD bhArg).1.map matExpNeg,
         (predict_cumulative_hazards st g maxD bhArg).2)
    ∧ predict_survival_at_times st times g bhArg
      = (predict_cumulative_hazards_at_times st times g bhArg).map matExpNeg
    ∧ (∀ M, (predict_cumulative_hazards st g maxD bhArg).1 = Except.ok M →
        ∀ row ∈ M, ∀ H ∈ row.2,
          (0 ≤ H → 0 < Real.exp (-H) ∧ Real.exp (-H) ≤ 1)
          ∧ (H < 0 → 1 < Real.exp (-H))) := by
  refine ⟨rfl, rfl, ?_⟩
  intro M _ row _ H _
  constructor
  · intro hH
    exact ⟨Real.exp_pos _, Real.exp_le_one_iff.mpr (by linarith)⟩
  · intro hH
    exact Real.one_lt_exp_iff.mpr (by linarith)

/-- Witness for `survival_is_exp_neg_cumhaz`: the model with explicit
baseline series `[(1,1)]` and scorer output `[0]` has the single
cumulative-hazard entry `1`, whose survival value `exp(-1)` is in
`(0, 1]`. -/
theorem survival_is_exp_neg_cumhaz_witness :
    0 < Real.exp (-1) ∧ Real.exp (-1) ≤ 1 := by
  have h := (survival_is_exp_neg_cumhaz ⟨none, none⟩ [0] none []
      (some [(1, 1)])).2.2 [((1:ℝ), [(1:ℝ)])]
    (by simp [predict_cumulative_hazards, _predict_cumulative_hazards,
      is_monotonic_increasing, cumsumPairs, cumsumPairsFrom, withinMax])
    ((1:ℝ), [(1:ℝ)]) (by simp) 1 (by simp)
  exact h.1 (by norm_num)

/-- Claim C8: calling `predict_cumulative_hazards` with no explicit
`baseline_hazards_` on a model whose attribute was never set raises the
`ValueError` immediately and leaves the model state unchanged; supplying
an explicit series never produces that error (only the monotonicity
assert can still fire). -/
theorem predict_requires_baseline (g : List ℝ) (maxD : Option ℝ)
    (bc : Option (List (ℝ × ℝ))) (st : CoxState) (bh : List (ℝ × ℝ)) :
    predict_cumulative_hazards ⟨none, bc⟩ g maxD none
      = (Except.error PyErr.valueErrorNeedBaselineHazards, ⟨none, bc⟩)
    ∧ predict_cumulative_hazards st g maxD (some bh)
      = (if is_monotonic_increasing (bh.map Prod.fst) then
          Except.ok (_predict_cumulative_hazards g maxD bh)
        else Except.error PyErr.assertionError, st) :=
  ⟨rfl, rfl⟩

/-! ### `CoxPHBase.partial_log_likelihood` (lines 469-497)

The frame built on lines 484-488 pairs each target row with the scorer
output `_g_preds`; durations and events are exact (`ℚ`), the scores are
real. -/

/-- One row of the assembled frame: duration, event and `_g_preds`. -/
structure SubjG where
  duration : ℚ
  event : ℚ
  g : ℝ

/-- The row order of `sort_values(self.duration_col, ascending=False)`
(line 489): `a` before `b` when `b.duration ≤ a.duration`. -/
def durGe (a b : SubjG) : Prop := b.duration ≤ a.duration

instance : DecidableRel durGe :=
  fun a b => inferInstanceAs (Decidable (b.duration ≤ a.duration))

instance : IsTotal SubjG durGe := ⟨fun a b => le_total b.duration a.duration⟩

instance : IsTrans SubjG durGe := ⟨fun _ _ _ hab hbc => le_trans hbc hab⟩

/-- `df.sort_values(self.duration_col, ascending=False)` (line 489). -/
def sort_desc (subs : List SubjG) : List SubjG := List.insertionSort durGe subs

/-- Lines 490-494: the `_cum_exp_g` column read at duration `d` — the
running cumulative sum `acc` of `exp(_g_preds)` down the
descending-sorted rows, maximized over the rows of the duration-`d`
group (`.cumsum().groupby(duration).transform('max')`).  `none` when no
row has duration `d`. -/
noncomputable def _cum_exp_g (acc : ℝ) (d : ℚ) : List SubjG → Option ℝ
  | [] => none
  | s :: rest =>
    let acc2 := acc + Real.exp s.g
    if s.duration = d then
      match _cum_exp_g acc2 d rest with
      | none => some acc2
      | some m => some (max acc2 m)
    else _cum_exp_g acc2 d rest

/-- `partial_log_likelihood` (lines 487-497) on the assembled rows: sort
descending by duration, keep the `event == 1` rows (line 495), and give
each one `_g_preds - log(_cum_exp_g)` (line 496). -/
noncomputable def partial_log_likelihood (subs : List SubjG) : List ℝ :=
  ((sort_desc subs).filter (fun s => decide (s.event = 1))).map
    (fun s => s.g - Real.log ((_cum_exp_g 0 s.duration (sort_desc subs)).getD 0))

/-- The Breslow tie-group denominator of the spec: `Σ exp(g)` over all
subjects with duration `≥ d`. -/
noncomputable def cum_exp_g_spec (subs : List SubjG) (d : ℚ) : ℝ :=
  ((subs.filter (fun s => decide (d ≤ s.duration))).map (fun s => Real.exp s.g)).sum

theorem cum_exp_g_spec_nonneg (subs : List SubjG) (d : ℚ) :
    0 ≤ cum_exp_g_spec subs d := by
  apply List.sum_nonneg
  intro x hx
  obtain ⟨s, _, rfl⟩ := List.mem_map.mp hx
  exact (Real.exp_pos _).le

theorem cum_exp_g_spec_cons_of_le (s : SubjG) (rest : List SubjG) (d : ℚ)
    (h : d ≤ s.duration) :
    cum_exp_g_spec (s :: rest) d = Real.exp s.g + cum_exp_g_spec rest d := by
  simp [cum_exp_g_spec, List.filter_cons, decide_eq_true h]

theorem _cum_exp_g_none (d : ℚ) (l : List SubjG)
    (h : d ∉ l.map SubjG.duration) : ∀ acc, _cum_exp_g acc d l = none := by
  induction l with
  | nil => intro acc; rfl
  | cons s rest ih =>
    intro acc
    simp only [List.map_cons, List.mem_cons] at h
    push_neg at h
    simp only [_cum_exp_g]
    rw [if_neg (Ne.symm h.1)]
    exact ih h.2 (acc + Real.exp s.g)

theorem _cum_exp_g_sorted (d : ℚ) (l : List SubjG)
    (hsort : l.Pairwise durGe) (hd : d ∈ l.map SubjG.duration) :
    ∀ acc, _cum_exp_g acc d l = some (acc + cum_exp_g_spec l d) := by
  induction l with
  | nil => simp at hd
  | cons s rest ih =>
    intro acc
    rw [List.pairwise_cons] at hsort
    by_cases hsd : s.duration = d
    · have hspec_cons : cum_exp_g_spec (s :: rest) d
          = Real.exp s.g + cum_exp_g_spec rest d :=
        cum_exp_g_spec_cons_of_le s rest d (le_of_eq hsd.symm)
      by_cases hdr : d ∈ rest.map SubjG.duration
      · have hrec := ih hsort.2 hdr (acc + Real.exp s.g)
        simp only [_cum_exp_g, if_pos hsd, hrec]
        have hmax : max (acc + Real.exp s.g)
            (acc + Real.exp s.g + cum_exp_g_spec rest d)
            = acc + Real.exp s.g + cum_exp_g_spec rest d :=
          max_eq_right (le_add_of_nonneg_right (cum_exp_g_spec_nonneg rest d))
        rw [hmax, hspec_cons]
        ring_nf
      · have hrec := _cum_exp_g_none d rest hdr (acc + Real.exp s.g)
        simp only [_cum_exp_g, if_pos hsd, hrec]
        have hzero : cum_exp_g_spec rest d = 0 := by
          unfold cum_exp_g_spec
          have : rest.filter (fun q => decide (d ≤ q.duration)) = [] := by
            rw [List.filter_eq_nil_iff]
            intro q hq
            simp only [decide_eq_true_eq]
            intro hdq
            have hle : q.duration ≤ s.duration := hsort.1 q hq
            have : q.duration = d := le_antisymm (hsd ▸ hle) hdq
            exact hdr (List.mem_map.mpr ⟨q, hq, this⟩)
          rw [this]
          rfl
        rw [hspec_cons, hzero, add_zero]
    · have hdr : d ∈ rest.map SubjG.duration := by
        simp only [List.map_cons, List.mem_cons] at hd
        rcases hd with hd | hd
        · exact absurd hd.symm hsd
        · exact hd
      obtain ⟨q, hq, hqd⟩ := List.mem_map.mp hdr
      have hds : d ≤ s.duration := hqd ▸ hsort.1 q hq
      have hrec := ih hsort.2 hdr (acc + Real.exp s.g)
      simp only [_cum_exp_g, if_neg hsd, hrec]
      rw [cum_exp_g_spec_cons_of_le s rest d hds]
      ring_nf

/-- Claim C6: `partial_log_likelihood` yields one term per `event == 1`
subject and drops censored subjects; each term is
`g - log(Σ_{duration' ≥ duration} exp(g'))`, tied subjects all seeing the
tie-group-end cumulative sum; on the cohort `durations [2,2,3]`,
`events [1,0,1]`, `exp(g) = [1,1,2]` the terms are `g3 - log 2` and
`g1 - log 4`. -/
theorem partial_log_likelihood_breslow (subs : List SubjG) (g1 g2 g3 : ℝ) :
    (partial_log_likelihood subs).length
      = (subs.filter (fun s => decide (s.event = 1))).length
    ∧ (∀ s ∈ subs, s.event = 1 →
        (s.g - Real.log (cum_exp_g_spec subs s.duration))
          ∈ partial_log_likelihood subs)
    ∧ (Real.exp g1 = 1 → Real.exp g2 = 1 → Real.exp g3 = 2 →
        partial_log_likelihood [⟨2, 1, g1⟩, ⟨2, 0, g2⟩, ⟨3, 1, g3⟩]
          = [g3 - Real.log 2, g1 - Real.log 4]) := by
  have hperm : List.Perm (sort_desc subs) subs := List.perm_insertionSort durGe subs
  have hsorted : (sort_desc subs).Pairwise durGe :=
    List.sorted_insertionSort durGe subs
  have hspec_eq : ∀ d, cum_exp_g_spec (sort_desc subs) d = cum_exp_g_spec subs d := by
    intro d
    exact ((hperm.filter _).map _).sum_eq
  refine ⟨?_, ?_, ?_⟩
  · unfold partial_log_likelihood
    rw [List.length_map]
    exact (hperm.filter _).length_eq
  · intro s hs hevent
    have hmem : s ∈ (sort_desc subs).filter (fun s => decide (s.event = 1)) :=
      List.mem_filter.mpr ⟨hperm.mem_iff.mpr hs, decide_eq_true hevent⟩
    have hval : (_cum_exp_g 0 s.duration (sort_desc subs)).getD 0
        = cum_exp_g_spec subs s.duration := by
      rw [_cum_exp_g_sorted s.duration (sort_desc subs) hsorted
        (List.mem_map.mpr ⟨s, hperm.mem_iff.mpr hs, rfl⟩) 0]
      rw [Option.getD_some, zero_add, hspec_eq]
    have := List.mem_map_of_mem
      (fun s => s.g - Real.log ((_cum_exp_g 0 s.duration (sort_desc subs)).getD 0))
      hmem
    simpa [partial_log_likelihood, hval] using this
  · intro e1 e2 e3
    norm_num [partial_log_likelihood, sort_desc, durGe, _cum_exp_g,
      e1, e2, e3, max_def]

/-- Witness for `partial_log_likelihood_breslow` with scores
`g1 = g2 = 0`, `g3 = log 2` (so `exp(g) = [1,1,2]`). -/
theorem partial_log_likelihood_breslow_witness :
    partial_log_likelihood [⟨2, 1, 0⟩, ⟨2, 0, 0⟩, ⟨3, 1, Real.log 2⟩]
      = [Real.log 2 - Real.log 2, 0 - Real.log 4] :=
  (partial_log_likelihood_breslow [] 0 0 (Real.log 2)).2.2
    Real.exp_zero Real.exp_zero (Real.exp_log (by norm_num))

/-! ### The data-frame wrappers (lines 305-381)

Lines 323, 347, 366 and 380 all read
`input, target = self.df_to_input(df), self.df_to_target` — the second
component binds the *method object* (no call parentheses), not the
`(durations, events)` target it was meant to produce.  A value in the
`target` slot is therefore either a real pair or that bound method. -/

/-- A Python value passed in the `target` position. -/
inductive PyTarget where
  /-- A real target: `(durations, events)`. -/
  | pair (durations : List ℚ) (events : List ℚ)
  /-- The bound method object `self.df_to_target` (referenced without a
  call). -/
  | boundMethod

/-- `CoxBase.target_to_df` (lines 32-35): `tuplefy(target).to_numpy()`
raises a `TypeError` on a bound-method object. -/
def target_to_df : PyTarget → Except PyErr (List ℚ × List ℚ)
  | .pair d e => Except.ok (d, e)
  | .boundMethod => Except.error PyErr.typeError

/-- Zip the target columns with the per-subject `expg` column into the
rows of the frame of line 402. -/
def mkSubjects (durations events expg : List ℚ) : List Subj :=
  (durations.zip (events.zip expg)).map (fun p => ⟨p.1, p.2.1, p.2.2⟩)

/-- `CoxBase.compute_baseline_hazards` (lines 37-67) with `sample=None`
and `set_hazards=False`: fall back to the training data when both
`input` and `target` are `None` (lines 53-56, `ValueError` when there is
none), build the target frame (line 57), and run the Breslow pipeline
(line 64).  `expgOf` stands for the composite `np.exp ∘ self.predict` of
the opaque scorer; a lone `None` among `input`/`target` makes
`tuplefy(None)` fail downstream (lines 57, 63) and is modelled as a
`TypeError`. -/
def compute_baseline_hazards_py {Input : Type}
    (expgOf : Input → List ℚ) (training : Option (Input × PyTarget))
    (input : Option Input) (target : Option PyTarget)
    (max_duration : Option ℚ) : Except PyErr (List (ℚ × ℚ)) :=
  match input, target with
  | none, none =>
    match training with
    | none => Except.error PyErr.valueErrorNeedInputTarget
    | some (ti, tt) =>
      (target_to_df tt).map (fun de =>
        _compute_baseline_hazards (mkSubjects de.1 de.2 (expgOf ti)) max_duration)
  | some i, some t =>
    (target_to_df t).map (fun de =>
      _compute_baseline_hazards (mkSubjects de.1 de.2 (expgOf i)) max_duration)
  | _, _ => Except.error PyErr.typeError

/-- `CoxBase.compute_baseline_cumulative_hazards` (lines 69-100) with
`sample=None` and `set_hazards=False`: raise when a cohort and an
explicit series are both supplied (lines 87-88), compute the baseline
series when none is supplied (lines 89-91), then the assert-and-cumsum
core (lines 92-96). -/
def compute_baseline_cumulative_hazards_py {Input : Type}
    (expgOf : Input → List ℚ) (training : Option (Input × PyTarget))
    (input : Option Input) (target : Option PyTarget) (max_duration : Option ℚ)
    (baseline_hazards_ : Option (List (ℚ × ℚ))) : Except PyErr (List (ℚ × ℚ)) :=
  if (input.isSome || target.isSome) && baseline_hazards_.isSome then
    Except.error PyErr.valueErrorBothGiven
  else
    match baseline_hazards_ with
    | some bh => compute_baseline_cumulative_hazards bh
    | none =>
      match compute_baseline_hazards_py expgOf training input target max_duration with
      | Except.error e => Except.error e
      | Except.ok bh => compute_baseline_cumulative_hazards bh

/-- `CoxBase.compute_baseline_cumulative_hazards_df` (lines 327-349):
line 347 binds the method object `self.df_to_target` into the `target`
slot when a dataframe is supplied. -/
def compute_baseline_cumulative_hazards_df {Frame Input : Type}
    (df_to_input : Frame → Input) (expgOf : Input → List ℚ)
    (training : Option (Input × PyTarget)) (df : Option Frame)
    (max_duration : Option ℚ) (baseline_hazards_ : Option (List (ℚ × ℚ))) :
    Except PyErr (List (ℚ × ℚ)) :=
  match df with
  | none =>
    compute_baseline_cumulative_hazards_py expgOf training none none
      max_duration baseline_hazards_
  | some f =>
    compute_baseline_cumulative_hazards_py expgOf training
      (some (df_to_input f)) (some PyTarget.boundMethod)
      max_duration baseline_hazards_

/-- `CoxPHBase.partial_log_likelihood` (lines 469-497) at its call
boundary: `df = self.target_to_df(target)` runs first (line 484), then
`g_preds` defaults to the scorer output (lines 485-486, `gOf`), then the
pure pipeline embedded above. -/
noncomputable def partial_log_likelihood_py {Input : Type}
    (gOf : Input → List ℝ) (input : Input) (target : PyTarget)
    (g_preds : Option (List ℝ)) : Except PyErr (List ℝ) :=
  (target_to_df target).map (fun de =>
    let gp := g_preds.getD (gOf input)
    partial_log_likelihood ((de.1.zip (de.2.zip gp)).map (fun p => ⟨p.1, p.2.1, p.2.2⟩)))

/-- `CoxBase.partial_log_likelihood_df` (lines 351-367): line 366 binds
the method object `self.df_to_target` into the `target` slot. -/
noncomputable def partial_log_likelihood_df {Frame Input : Type}
    (df_to_input : Frame → Input) (gOf : Input → List ℝ)
    (df : Frame) (g_preds : Option (List ℝ)) : Except PyErr (List ℝ) :=
  partial_log_likelihood_py gOf (df_to_input df) PyTarget.boundMethod g_preds

/-- `CoxPHBase.concordance_index` (lines 499-513): the unpacking
`durations, events = target` (line 510) raises a `TypeError` on a
bound-method object; otherwise `1 - concordance_index(durations,
g_preds, events)` (line 513) with the external lifelines metric
injected as `lifelinesCI`. -/
noncomputable def concordance_index_py {Input : Type}
    (gOf : Input → List ℝ) (lifelinesCI : List ℚ → List ℝ → List ℚ → ℝ)
    (input : Input) (target : PyTarget) (g_preds : Option (List ℝ)) :
    Except PyErr ℝ :=
  match target with
  | .boundMethod => Except.error PyErr.typeError
  | .pair d e =>
    let gp := g_preds.getD (gOf input)
    Except.ok (1 - lifelinesCI d gp e)

/-- `CoxBase.concordance_index_df` (lines 369-381): line 380 binds the
method object `self.df_to_target` into the `target` slot. -/
noncomputable def concordance_index_df {Frame Input : Type}
    (df_to_input : Frame → Input) (gOf : Input → List ℝ)
    (lifelinesCI : List ℚ → List ℝ → List ℚ → ℝ)
    (df : Frame) (g_preds : Option (List ℝ)) : Except PyErr ℝ :=
  concordance_index_py gOf lifelinesCI (df_to_input df) PyTarget.boundMethod g_preds

/-- The parameters `CoxBase.compute_baseline_hazards_df` accepts besides
`self` (lines 305-306): `df, max_duration, sample, batch_size,
set_hazards`. -/
def compute_baseline_hazards_df_param_count : ℕ := 5

/-- The positional arguments its body passes to itself besides `self`
(lines 324-325): `input, target, max_duration, sample, batch_size,
set_hazards`. -/
def compute_baseline_hazards_df_arg_count : ℕ := 6

/-- `CoxBase.compute_baseline_hazards_df` (lines 305-325): the body
builds `(input, target)` (lines 321-323, again binding the method
object, which cannot raise) and then re-invokes
`compute_baseline_hazards_df` *itself* — not `compute_baseline_hazards`
— with six positional arguments against the five-parameter signature,
so Python raises a `TypeError` at the call site before entering the
callee.  `fuel` is the remaining Python call-stack depth that a matching
arity would have consumed. -/
def compute_baseline_hazards_df {Frame Input : Type}
    (df_to_input : Frame → Input) :
    ℕ → Option Frame → Option ℚ → Except PyErr (List (ℚ × ℚ))
  | 0, _, _ => Except.error PyErr.recursionError
  | fuel + 1, df, max_duration =>
    if compute_baseline_hazards_df_arg_count = compute_baseline_hazards_df_param_count
    then compute_baseline_hazards_df df_to_input fuel df max_duration
    else Except.error PyErr.typeError

/-- Claim C9: `compute_baseline_hazards_df` never returns a baseline
series — its self-call passes six positional arguments to a
five-parameter method, so every call raises: a `TypeError` whenever the
call stack admits a frame (and stack exhaustion in the fuel-0 case). -/
theorem compute_baseline_hazards_df_always_raises {Frame Input : Type}
    (df_to_input : Frame → Input) (fuel : ℕ) (df : Option Frame)
    (maxD : Option ℚ) :
    compute_baseline_hazards_df df_to_input (fuel + 1) df maxD
      = Except.error PyErr.typeError
    ∧ ∃ e, compute_baseline_hazards_df df_to_input fuel df maxD
        = Except.error e := by
  constructor
  · rfl
  · cases fuel with
    | zero => exact ⟨PyErr.recursionError, rfl⟩
    | succ n => exact ⟨PyErr.typeError, rfl⟩

/-- Claim C10: with a dataframe supplied, `partial_log_likelihood_df`,
`concordance_index_df` and `compute_baseline_cumulative_hazards_df` bind
the method object `self.df_to_target` instead of applying it to `df`,
so each call raises (a `TypeError` from converting/unpacking the method,
or the both-given `ValueError` when an explicit baseline series is also
passed) instead of returning the documented result. -/
theorem df_wrappers_bind_method {Frame Input : Type}
    (df_to_input : Frame → Input) (gOf : Input → List ℝ)
    (lifelinesCI : List ℚ → List ℝ → List ℚ → ℝ)
    (expgOf : Input → List ℚ) (training : Option (Input × PyTarget))
    (df : Frame) (g_preds : Option (List ℝ)) (maxD : Option ℚ)
    (bh : List (ℚ × ℚ)) :
    partial_log_likelihood_df df_to_input gOf df g_preds
      = Except.error PyErr.typeError
    ∧ concordance_index_df df_to_input gOf lifelinesCI df g_preds
      = Except.error PyErr.typeError
    ∧ compute_baseline_cumulative_hazards_df df_to_input expgOf training
        (some df) maxD none = Except.error PyErr.typeError
    ∧ compute_baseline_cumulative_hazards_df df_to_input expgOf training
        (some df) maxD (some bh) = Except.error PyErr.valueErrorBothGiven :=
  ⟨rfl, rfl, rfl, rfl⟩

end Pycox
